import Mathlib

/-!
# Knight-Rider breathing LED pattern (`HelloWorld/main/HelloWorld.c`)

A shallow embedding of the pattern generator of `HelloWorld.c` and the proofs of
its specification.

* C `float` is IEEE-754 binary32.  A finite binary32 value is represented by the
  rational number it denotes (`F32 := ℚ`), and every arithmetic operation is the
  exact rational operation followed by `rnd`, rounding to nearest with ties to
  even on the 24-bit significand grid.  With a cosine in `[-1, 1]` every float
  the program computes has a magnitude of at most `8191`, far from overflow, so
  infinities and NaN are not represented.
* `cosf` and `powf` come from the C library, which is not part of the repository.
  They are the two fields of `Libm`; theorems state what they need of them.
* `uint32_t`/`int` are `Nat`/`Int` with explicit wrap-around.
* The duty-write primitive (`ledc_set_duty` + `ledc_update_duty`) is the sink: a
  tick of `pattern_knight` is modelled by the list of writes it issues, in order.
-/

namespace HelloWorld

/-! ## binary32 arithmetic -/

/-- Finite binary32 values, each represented by the rational it denotes. -/
abbrev F32 := ℚ

/-- Round to the nearest integer, ties to the even one. -/
def rne (x : ℚ) : ℤ :=
  if x - ⌊x⌋ < 1 / 2 then ⌊x⌋
  else if 1 / 2 < x - ⌊x⌋ then ⌊x⌋ + 1
  else if ⌊x⌋ % 2 = 0 then ⌊x⌋ else ⌊x⌋ + 1

/-- Binary exponent of the binade of `x`, clamped below at the subnormal exponent. -/
def f32_exp (x : ℚ) : ℤ := max (Int.log 2 |x|) (-126)

/-- Unit in the last place of the binade of `x` (24-bit significand). -/
def f32_ulp (x : ℚ) : ℚ := (2 : ℚ) ^ (f32_exp x - 23)

/-- Rounding of an exact result to binary32 (round to nearest, ties to even). -/
def rnd (x : ℚ) : F32 := (rne (x / f32_ulp x) : ℚ) * f32_ulp x

/-- Float multiplication `a * b`. -/
def fmul (a b : F32) : F32 := rnd (a * b)

/-- Float division `a / b`. -/
def fdiv (a b : F32) : F32 := rnd (a / b)

/-- Float subtraction `a - b`. -/
def fsub (a b : F32) : F32 := rnd (a - b)

/-- Conversion `(float)n` of a non-negative integer (`uint32_t`, or an `int` that is
not negative). -/
def u2f (n : ℕ) : F32 := rnd (n : ℚ)

/-- Conversion `(uint32_t)x` of a float: truncation toward zero.  C defines it for
`-1 < x < 2^32`; there it is `⌊x⌋` for `0 ≤ x` and `0` for `-1 < x < 0`. -/
def f2u (x : F32) : ℕ := ⌊x⌋₊

/-! ## C library -/

/-- The two C library functions the program calls.  Their code is not part of the
repository; each theorem states the facts about them it relies on. -/
structure Libm where
  /-- The function `float cosf(float)`. -/
  cosf : F32 → F32
  /-- The function `float powf(float, float)`. -/
  powf : F32 → F32 → F32

/-! ## Configuration (`HelloWorld.c`, lines 12-35) -/

/-- Constant `NLEDS = sizeof(LEDS)/sizeof(LEDS[0])`, three entries in `LEDS`. -/
def NLEDS : ℕ := 3

/-- Constant `LEDC_DUTY_BITS = LEDC_TIMER_13_BIT`, the 13-bit resolution of the LEDC timer. -/
def LEDC_DUTY_BITS : ℕ := 13

/-- Constant `LEDC_MAX_DUTY = (1 << LEDC_DUTY_BITS) - 1`. -/
def LEDC_MAX_DUTY : ℕ := (1 <<< LEDC_DUTY_BITS) - 1

/-- Polarity flag, `#define ACTIVE_LOW 0`. -/
def ACTIVE_LOW : Bool := false

/-- Breathing period, `#define BREATH_PERIOD_MS 1600`. -/
def BREATH_PERIOD_MS : ℕ := 1600

/-- The `double` constant `M_PI` of `math.h`. -/
def M_PI : ℚ := 884279719003555 / 281474976710656

/-- The float `(float)M_PI`. -/
def M_PI_f : F32 := rnd M_PI

/-- Largest value of a C `int` on the target (32 bits). -/
def INT_MAX : ℕ := 2147483647

/-- Result of `int` arithmetic: the exact result wrapped to 32-bit two's complement. -/
def wrap_int (x : ℤ) : ℤ := (x + 2147483648) % 4294967296 - 2147483648

/-- Result of `uint32_t` subtraction `a - b`. -/
def u32_sub (a b : ℕ) : ℕ := (a % 4294967296 + 4294967296 - b % 4294967296) % 4294967296

/-! ## Brightness envelope (lines 42-50) -/

/-- Function `ease_sine`: `0.5f * (1.0f - cosf(2.0f * (float)M_PI * t01))`. -/
def ease_sine (m : Libm) (t01 : F32) : F32 :=
  fmul (1 / 2) (fsub 1 (m.cosf (fmul (fmul 2 M_PI_f) t01)))

/-- The local `phase` of `breath_duty_from_time`:
`(float)(t_ms % BREATH_PERIOD_MS) / (float)BREATH_PERIOD_MS`, for the `uint32_t`
argument `t_ms`. -/
def breath_phase (t_ms : ℕ) : F32 :=
  fdiv (u2f (t_ms % 4294967296 % BREATH_PERIOD_MS)) (u2f BREATH_PERIOD_MS)

/-- The local `b` of `breath_duty_from_time`: the envelope value at time `t_ms`. -/
def envelope (m : Libm) (t_ms : ℕ) : F32 := ease_sine m (breath_phase t_ms)

/-- Function `breath_duty_from_time`: `(uint32_t)(b * LEDC_MAX_DUTY)`. -/
def breath_duty_from_time (m : Libm) (t_ms : ℕ) : ℕ :=
  f2u (fmul (envelope m t_ms) (u2f LEDC_MAX_DUTY))

/-! ## Output sink (lines 76-84) -/

/-- One call of the duty-write primitive: channel and duty handed to
`ledc_set_duty`. -/
structure Write where
  /-- The channel, `(ledc_channel_t)idx`. -/
  ch : ℤ
  /-- The duty value. -/
  duty : ℕ

/-- Function `set_led_inv(idx, duty)`: when the polarity flag is set the duty is replaced
by `LEDC_MAX_DUTY - duty` (unsigned arithmetic), then written to channel `idx`. -/
def set_led_inv (active_low : Bool) (idx : ℤ) (duty : ℕ) : Write :=
  ⟨idx, if active_low then u32_sub LEDC_MAX_DUTY duty else duty⟩

/-- Function `set_all(duty)`: `for (i = 0; i < n; ++i) set_led_inv(i, duty)`. -/
def set_all (active_low : Bool) (n : ℕ) (duty : ℕ) : List Write :=
  (List.range n).map (fun (i : ℕ) => set_led_inv active_low (i : ℤ) duty)

/-! ## Knight-Rider pattern (lines 89-118) -/

/-- The locals `idx` and `dir` of `pattern_knight`. -/
structure SweepState where
  /-- Head index `idx`. -/
  idx : ℤ
  /-- Direction `dir`. -/
  dir : ℤ

/-- Initial state, `int dir = 1, idx = 0;`. -/
def sweep_init : SweepState := ⟨0, 1⟩

/-- Decay ratio, `const float tail_decay = 0.45f;`. -/
def tail_decay : F32 := rnd (45 / 100)

/-- Tail length, `const int segments = 2;`. -/
def segments : ℕ := 2

/-- The local `d` of the tail loop at distance `s`:
`(uint32_t)(base * powf(tail_decay, (float)s))`. -/
def tail_duty (m : Libm) (base : ℕ) (s : ℕ) : ℕ :=
  f2u (fmul (u2f base) (m.powf tail_decay (u2f s)))

/-- Body of the tail loop for one `s` (lines 103-109). -/
def knight_segment (m : Libm) (active_low : Bool) (n : ℕ) (base : ℕ) (idx : ℤ)
    (s : ℕ) : List Write :=
  let d := tail_duty m base s
  let left := wrap_int (idx - s)
  let right := wrap_int (idx + s)
  (if 0 ≤ left then [set_led_inv active_low left d] else []) ++
  (if right < (n : ℤ) then [set_led_inv active_low right d] else [])

/-- The tail loop `for (s = 1; s <= segments; ++s)` (lines 102-110). -/
def knight_tail (m : Libm) (active_low : Bool) (n : ℕ) (base : ℕ) (idx : ℤ) :
    List Write :=
  ((List.range' 1 segments).map (knight_segment m active_low n base idx)).flatten

/-- Writes of one iteration of the `while (1)` loop for a given `base`
(lines 99-110): `set_all(0)`, the head, then the tail. -/
def knight_frame (m : Libm) (active_low : Bool) (n : ℕ) (base : ℕ) (idx : ℤ) :
    List Write :=
  set_all active_low n 0 ++ set_led_inv active_low idx base ::
    knight_tail m active_low n base idx

/-- Writes of one tick at elapsed time `t = ms() - t0` (lines 96-110). -/
def knight_writes (m : Libm) (active_low : Bool) (n : ℕ) (t : ℕ) (st : SweepState) :
    List Write :=
  knight_frame m active_low n (breath_duty_from_time m t) st.idx

/-- State update at the end of a tick (lines 112-114). -/
def sweep_step (n : ℕ) (st : SweepState) : SweepState :=
  let idx := wrap_int (st.idx + st.dir)
  ⟨idx, if idx = (n : ℤ) - 1 then -1 else if idx = 0 then 1 else st.dir⟩

/-- One tick of `pattern_knight`: the writes issued and the next sweep state. -/
def pattern_knight_tick (m : Libm) (active_low : Bool) (n : ℕ) (t : ℕ)
    (st : SweepState) : List Write × SweepState :=
  (knight_writes m active_low n t st, sweep_step n st)

/-- Sweep state at the start of tick `k` (ticks counted from 0). -/
def sweep_state (n : ℕ) : ℕ → SweepState
  | 0 => sweep_init
  | k + 1 => sweep_step n (sweep_state n k)

/-- First `k` ticks of `pattern_knight`, tick `i` running at elapsed time `ts i`:
the writes of every tick, in order. -/
def pattern_knight (m : Libm) (active_low : Bool) (n : ℕ) (ts : ℕ → ℕ) (k : ℕ) :
    List (List Write) :=
  (List.range k).map (fun i => knight_writes m active_low n (ts i) (sweep_state n i))

/-! ## Observations on a tick -/

/-- Last duty written to channel `p` by a list of writes, if any. -/
def last_written : List Write → ℤ → Option ℕ
  | [], _ => none
  | w :: ws, p =>
    match last_written ws p with
    | some d => some d
    | none => if w.ch = p then some w.duty else none

/-- Duty vector left on outputs `0 .. n-1` by a list of writes. -/
def duty_vector (n : ℕ) (ws : List Write) : List (Option ℕ) :=
  (List.range n).map (fun (p : ℕ) => last_written ws (p : ℤ))

/-! ## The specification's wording of the duty vector -/

/-- Duty the specification assigns to output `p` for head `idx`: `base` at the
head, `round(base * 0.45^s)` at distance `s` in `1..segments`, `0` elsewhere. -/
def spec_knight_duty (base : ℕ) (idx p : ℤ) : ℤ :=
  if p = idx then base
  else if (p - idx).natAbs ≤ segments then
    round ((base : ℚ) * (45 / 100) ^ (p - idx).natAbs)
  else 0

/-- The triangle wave of period `2 (n - 1)` on `0 .. n-1`. -/
def triangle (n k : ℕ) : ℕ :=
  if k % (2 * (n - 1)) ≤ n - 1 then k % (2 * (n - 1)) else 2 * (n - 1) - k % (2 * (n - 1))

/-! ## A reference C library -/

/-- A reference cosine: the argument is reduced to the nearest multiple of
`(float)M_PI`, the degree-8 Taylor polynomial is evaluated exactly, and the
result is rounded and clamped to `[-1, 1]`. -/
def cosf_ref (x : F32) : F32 :=
  let k := rne (x / M_PI_f)
  let r := x - k * M_PI_f
  let c := 1 - r ^ 2 / 2 + r ^ 4 / 24 - r ^ 6 / 720 + r ^ 8 / 40320
  max (-1) (min 1 (rnd (if k % 2 = 0 then c else -c)))

/-- A reference power, for the non-negative integral exponents the program uses:
the correctly rounded `x ^ y`. -/
def powf_ref (x y : F32) : F32 := rnd (x ^ ⌊y⌋₊)

/-- The reference C library. -/
def libm_ref : Libm := ⟨cosf_ref, powf_ref⟩

/-! ## Assumptions on the C library -/

/-- The cosine stays in `[-1, 1]`. -/
def CosfBounded (m : Libm) : Prop := ∀ x, -1 ≤ m.cosf x ∧ m.cosf x ≤ 1

/-- The cosine is exact at `0` and at `(float)M_PI`. -/
def CosfExact (m : Libm) : Prop := m.cosf 0 = 1 ∧ m.cosf M_PI_f = -1

/-- The decay factors: `powf(x, 1) = x`, and the factor for distance 2 is
non-negative and not above the factor for distance 1. -/
def PowfDecays (m : Libm) : Prop :=
  m.powf tail_decay 1 = tail_decay ∧ 0 ≤ m.powf tail_decay 2 ∧
    m.powf tail_decay 2 ≤ m.powf tail_decay 1

/-! ## Closed forms used in the statements -/

/-- Sweep state in terms of the position `r` inside the period. -/
def sweep_at (n r : ℕ) : SweepState :=
  ⟨((if r ≤ n - 1 then r else 2 * (n - 1) - r : ℕ) : ℤ), if r < n - 1 then 1 else -1⟩

/-- Duty the code leaves on output `p` of `n` for head `idx`: `base` at the head,
the truncated single-precision product `tail_duty` at distance 1 or 2, and the
`0` of `set_all` elsewhere. -/
def knight_duty (m : Libm) (base : ℕ) (idx p : ℤ) : ℕ :=
  if p = idx then base
  else if (p - idx).natAbs ≤ segments then tail_duty m base (p - idx).natAbs
  else 0

/-! ## Rounding lemmas -/

theorem rne_intCast (n : ℤ) : rne (n : ℚ) = n := by
  simp [rne]

theorem floor_le_rne (x : ℚ) : ⌊x⌋ ≤ rne x := by
  unfold rne; split_ifs <;> omega

theorem rne_le_floor_succ (x : ℚ) : rne x ≤ ⌊x⌋ + 1 := by
  unfold rne; split_ifs <;> omega

theorem rne_eq_of_abs_lt (x : ℚ) (m : ℤ) (h : |x - m| < 1 / 2) : rne x = m := by
  have h1 := Int.floor_le x
  have h2 := Int.lt_floor_add_one x
  rw [abs_lt] at h
  obtain ⟨h3, h4⟩ := h
  unfold rne
  split_ifs with c1 c2 c3
  · have a : ((⌊x⌋ : ℤ) : ℚ) < m + 1 := by linarith
    have b : ((m : ℤ) : ℚ) < ⌊x⌋ + 1 := by linarith
    have a' : ⌊x⌋ < m + 1 := by exact_mod_cast a
    have b' : m < ⌊x⌋ + 1 := by exact_mod_cast b
    omega
  · have a : ((⌊x⌋ : ℤ) : ℚ) + 1 < m + 1 := by linarith
    have b : ((m : ℤ) : ℚ) < ⌊x⌋ + 1 + 1 := by linarith
    have a' : ⌊x⌋ + 1 < m + 1 := by exact_mod_cast a
    have b' : m < ⌊x⌋ + 1 + 1 := by exact_mod_cast b
    omega
  · exfalso
    have e : x - ⌊x⌋ = 1 / 2 := le_antisymm (not_lt.mp c2) (not_lt.mp c1)
    have a : ((⌊x⌋ : ℤ) : ℚ) < m := by linarith
    have b : ((m : ℤ) : ℚ) < ⌊x⌋ + 1 := by linarith
    have a' : ⌊x⌋ < m := by exact_mod_cast a
    have b' : m < ⌊x⌋ + 1 := by exact_mod_cast b
    omega
  · exfalso
    have e : x - ⌊x⌋ = 1 / 2 := le_antisymm (not_lt.mp c2) (not_lt.mp c1)
    have a : ((⌊x⌋ : ℤ) : ℚ) < m := by linarith
    have b : ((m : ℤ) : ℚ) < ⌊x⌋ + 1 := by linarith
    have a' : ⌊x⌋ < m := by exact_mod_cast a
    have b' : m < ⌊x⌋ + 1 := by exact_mod_cast b
    omega

theorem rne_mono {x y : ℚ} (h : x ≤ y) : rne x ≤ rne y := by
  rcases (Int.floor_mono h).lt_or_eq with hlt | heq
  · calc rne x ≤ ⌊x⌋ + 1 := rne_le_floor_succ x
      _ ≤ ⌊y⌋ := hlt
      _ ≤ rne y := floor_le_rne y
  · unfold rne
    rw [← heq]
    split_ifs <;> first | omega | (exfalso; linarith)

theorem f32_ulp_pos (x : ℚ) : 0 < f32_ulp x := by
  unfold f32_ulp; positivity

theorem f32_exp_eq {x : ℚ} {e : ℤ} (he : -126 ≤ e) (h1 : (2 : ℚ) ^ e ≤ |x|)
    (h2 : |x| < (2 : ℚ) ^ (e + 1)) : f32_exp x = e := by
  have hpos : 0 < |x| := lt_of_lt_of_le (by positivity) h1
  have a : e ≤ Int.log 2 |x| := (Int.zpow_le_iff_le_log (by norm_num) hpos).mp (by exact_mod_cast h1)
  have b : Int.log 2 |x| < e + 1 := (Int.lt_zpow_iff_log_lt (by norm_num) hpos).mp (by exact_mod_cast h2)
  unfold f32_exp
  omega

theorem rnd_eq {x : ℚ} {e m : ℤ} (he : -126 ≤ e) (h1 : (2 : ℚ) ^ e ≤ |x|)
    (h2 : |x| < (2 : ℚ) ^ (e + 1)) (hm : |x / (2 : ℚ) ^ (e - 23) - m| < 1 / 2) :
    rnd x = m * (2 : ℚ) ^ (e - 23) := by
  unfold rnd f32_ulp
  rw [f32_exp_eq he h1 h2, rne_eq_of_abs_lt _ _ hm]

theorem rnd_zero : rnd 0 = 0 := by
  simp [rnd, rne]

theorem rnd_nonneg {x : ℚ} (hx : 0 ≤ x) : 0 ≤ rnd x := by
  unfold rnd
  have hu := f32_ulp_pos x
  have h0 : (0 : ℤ) ≤ rne (x / f32_ulp x) := by
    have := rne_mono (div_nonneg hx hu.le)
    rwa [show (0 : ℚ) = ((0 : ℤ) : ℚ) by norm_num, rne_intCast] at this
  have : (0 : ℚ) ≤ (rne (x / f32_ulp x) : ℚ) := by exact_mod_cast h0
  positivity

theorem lt_two_zpow_f32_exp (x : ℚ) : |x| < (2 : ℚ) ^ (f32_exp x + 1) := by
  have h := Int.lt_zpow_succ_log_self (R := ℚ) (b := 2) (by norm_num) |x|
  refine lt_of_lt_of_le h ?_
  have : Int.log 2 |x| + 1 ≤ f32_exp x + 1 := by unfold f32_exp; omega
  exact_mod_cast zpow_le_zpow_right₀ (by norm_num : (1 : ℚ) ≤ 2) this

theorem rnd_le_two_zpow {x : ℚ} (hx : 0 ≤ x) : rnd x ≤ (2 : ℚ) ^ (f32_exp x + 1) := by
  have hu := f32_ulp_pos x
  have h := lt_two_zpow_f32_exp x
  rw [abs_of_nonneg hx] at h
  have hq : x / f32_ulp x ≤ (((2 : ℤ) ^ 24 : ℤ) : ℚ) := by
    rw [div_le_iff₀ hu]
    have : (((2 : ℤ) ^ 24 : ℤ) : ℚ) * f32_ulp x = (2 : ℚ) ^ (f32_exp x + 1) := by
      unfold f32_ulp
      rw [show f32_exp x + 1 = 24 + (f32_exp x - 23) by ring, zpow_add₀ (by norm_num)]
      norm_num
    rw [this]; exact h.le
  have hr := rne_mono hq
  rw [rne_intCast] at hr
  have hr' : (rne (x / f32_ulp x) : ℚ) ≤ (((2 : ℤ) ^ 24 : ℤ) : ℚ) := by exact_mod_cast hr
  calc rnd x = (rne (x / f32_ulp x) : ℚ) * f32_ulp x := rfl
    _ ≤ (((2 : ℤ) ^ 24 : ℤ) : ℚ) * f32_ulp x := by gcongr
    _ = (2 : ℚ) ^ (f32_exp x + 1) := by
      unfold f32_ulp
      rw [show f32_exp x + 1 = 24 + (f32_exp x - 23) by ring, zpow_add₀ (by norm_num)]
      norm_num

theorem two_zpow_le_rnd {x : ℚ} (hx : 0 < x) (hl : -126 ≤ Int.log 2 x) :
    (2 : ℚ) ^ (f32_exp x) ≤ rnd x := by
  have hu := f32_ulp_pos x
  have he : f32_exp x = Int.log 2 x := by
    unfold f32_exp; rw [abs_of_pos hx]; omega
  have h := Int.zpow_log_le_self (R := ℚ) (b := 2) (by norm_num) hx
  have key : (((2 : ℤ) ^ 23 : ℤ) : ℚ) * f32_ulp x = (2 : ℚ) ^ (f32_exp x) := by
    unfold f32_ulp
    rw [show f32_exp x = 23 + (f32_exp x - 23) by ring, zpow_add₀ (by norm_num)]
    norm_num
  have hq : (((2 : ℤ) ^ 23 : ℤ) : ℚ) ≤ x / f32_ulp x := by
    rw [le_div_iff₀ hu, key, he]
    exact_mod_cast h
  have hr := rne_mono hq
  rw [rne_intCast] at hr
  have hr' : (((2 : ℤ) ^ 23 : ℤ) : ℚ) ≤ (rne (x / f32_ulp x) : ℚ) := by exact_mod_cast hr
  calc (2 : ℚ) ^ (f32_exp x) = (((2 : ℤ) ^ 23 : ℤ) : ℚ) * f32_ulp x := key.symm
    _ ≤ (rne (x / f32_ulp x) : ℚ) * f32_ulp x := by gcongr
    _ = rnd x := rfl

theorem f32_exp_mono {x y : ℚ} (hx : 0 < x) (h : x ≤ y) : f32_exp x ≤ f32_exp y := by
  have := Int.log_mono_right (b := 2) hx h
  unfold f32_exp
  rw [abs_of_pos hx, abs_of_pos (lt_of_lt_of_le hx h)]
  omega

theorem rnd_mono {x y : ℚ} (hx : 0 ≤ x) (h : x ≤ y) : rnd x ≤ rnd y := by
  rcases hx.lt_or_eq with hpos | h0
  · have hy : 0 < y := lt_of_lt_of_le hpos h
    rcases (f32_exp_mono hpos h).lt_or_eq with hlt | heq
    · have hl : -126 ≤ Int.log 2 y := by
        have e1 : -126 ≤ f32_exp x := by unfold f32_exp; omega
        have e2 : f32_exp y = max (Int.log 2 y) (-126) := by
          unfold f32_exp; rw [abs_of_pos hy]
        omega
      calc rnd x ≤ (2 : ℚ) ^ (f32_exp x + 1) := rnd_le_two_zpow hx
        _ ≤ (2 : ℚ) ^ (f32_exp y) := zpow_le_zpow_right₀ (by norm_num) (by omega)
        _ ≤ rnd y := two_zpow_le_rnd hy hl
    · have hu : f32_ulp x = f32_ulp y := by unfold f32_ulp; rw [heq]
      unfold rnd
      rw [hu]
      have hup := f32_ulp_pos y
      have : rne (x / f32_ulp y) ≤ rne (y / f32_ulp y) := rne_mono (by gcongr)
      have : (rne (x / f32_ulp y) : ℚ) ≤ (rne (y / f32_ulp y) : ℚ) := by exact_mod_cast this
      gcongr
  · rw [← h0, rnd_zero]
    exact rnd_nonneg (h0 ▸ h)

theorem rnd_two_zpow {z : ℤ} (hz : -126 ≤ z) : rnd ((2 : ℚ) ^ z) = (2 : ℚ) ^ z := by
  have hp : (0 : ℚ) < (2 : ℚ) ^ z := by positivity
  have he : f32_exp ((2 : ℚ) ^ z) = z := by
    apply f32_exp_eq hz
    · rw [abs_of_pos hp]
    · rw [abs_of_pos hp]
      exact zpow_lt_zpow_right₀ (by norm_num) (by omega)
  unfold rnd f32_ulp
  rw [he]
  have : (2 : ℚ) ^ z / (2 : ℚ) ^ (z - 23) = (((2 : ℤ) ^ 23 : ℤ) : ℚ) := by
    rw [← zpow_sub₀ (by norm_num)]
    rw [show z - (z - 23) = 23 by ring]
    norm_num
  rw [this, rne_intCast]
  rw [show z = 23 + (z - 23) by ring, zpow_add₀ (by norm_num)]
  norm_num

/-! ## Sweep state -/

theorem wrap_int_eq {x : ℤ} (h1 : -2147483648 ≤ x) (h2 : x < 2147483648) : wrap_int x = x := by
  unfold wrap_int; omega

theorem succ_mod_period (k p : ℕ) (hp : 2 ≤ p) :
    (k + 1) % p = if k % p + 1 < p then k % p + 1 else 0 := by
  have hr : k % p < p := Nat.mod_lt _ (by omega)
  have h1 : (k + 1) % p = (k % p + 1) % p := by
    rw [Nat.add_mod, Nat.mod_eq_of_lt (show 1 < p by omega)]
  rw [h1]
  split_ifs with h
  · exact Nat.mod_eq_of_lt h
  · have : k % p + 1 = p := by omega
    rw [this, Nat.mod_self]

theorem sweep_step_at (n r : ℕ) (hn : 2 ≤ n) (hmax : n ≤ INT_MAX) (hr : r < 2 * (n - 1)) :
    sweep_step n (sweep_at n r) = sweep_at n (if r + 1 < 2 * (n - 1) then r + 1 else 0) := by
  unfold INT_MAX at hmax
  simp only [sweep_step, sweep_at, SweepState.mk.injEq, wrap_int]
  refine ⟨?_, ?_⟩
  · split_ifs <;> omega
  · split_ifs <;> omega

/-- Closed form of the sweep state for at least two outputs. -/
theorem sweep_state_eq (n k : ℕ) (hn : 2 ≤ n) (hmax : n ≤ INT_MAX) :
    sweep_state n k = sweep_at n (k % (2 * (n - 1))) := by
  induction k with
  | zero => simp [sweep_state, sweep_init, sweep_at]; omega
  | succ k ih =>
    rw [sweep_state, ih, sweep_step_at n _ hn hmax (Nat.mod_lt _ (by omega)),
      succ_mod_period k _ (by omega)]

theorem sweep_state_idx_range (n k : ℕ) (hn : 2 ≤ n) (hmax : n ≤ INT_MAX) :
    0 ≤ (sweep_state n k).idx ∧ (sweep_state n k).idx < n := by
  rw [sweep_state_eq n k hn hmax]
  have hr : k % (2 * (n - 1)) < 2 * (n - 1) := Nat.mod_lt _ (by omega)
  simp only [sweep_at]
  split_ifs <;> omega

/-! ## Writes of one tick -/

theorem last_written_append (a b : List Write) (p : ℤ) :
    last_written (a ++ b) p =
      match last_written b p with
      | some d => some d
      | none => last_written a p := by
  induction a with
  | nil => cases h : last_written b p <;> simp [last_written, h]
  | cons w a ih =>
    rw [List.cons_append, last_written, ih, last_written]
    cases h : last_written b p <;> simp

theorem last_written_none_of_forall (ws : List Write) (p : ℤ) (h : ∀ w ∈ ws, w.ch ≠ p) :
    last_written ws p = none := by
  induction ws with
  | nil => rfl
  | cons w ws ih =>
    have h1 := ih (fun v hv => h v (List.mem_cons_of_mem _ hv))
    have h2 := h w (List.mem_cons_self _ _)
    simp [last_written, h1, h2]

theorem set_led_inv_duty (al : Bool) (i : ℤ) (d : ℕ) :
    (set_led_inv al i d).duty = if al then u32_sub LEDC_MAX_DUTY d else d := rfl

theorem set_led_inv_ch (al : Bool) (i : ℤ) (d : ℕ) : (set_led_inv al i d).ch = i := rfl

theorem last_written_set_all (al : Bool) (n d : ℕ) (p : ℤ) :
    last_written (set_all al n d) p =
      if 0 ≤ p ∧ p < n then some (set_led_inv al p d).duty else none := by
  unfold set_all
  induction n with
  | zero =>
    have : ¬ (0 ≤ p ∧ p < (0 : ℤ)) := by omega
    simp [last_written, this]
  | succ n ih =>
    rw [List.range_succ, List.map_append, last_written_append, ih]
    simp only [List.map_cons, List.map_nil, last_written, set_led_inv_duty, set_led_inv_ch]
    by_cases hp : (n : ℤ) = p
    · have h1 : 0 ≤ p ∧ p < ((n + 1 : ℕ) : ℤ) := by push_cast; omega
      simp only [if_pos hp, if_pos h1]
    · by_cases c : 0 ≤ p ∧ p < (n : ℤ)
      · have h1 : 0 ≤ p ∧ p < ((n + 1 : ℕ) : ℤ) := by push_cast; omega
        simp only [if_neg hp, if_pos c, if_pos h1]
      · have h1 : ¬ (0 ≤ p ∧ p < ((n + 1 : ℕ) : ℤ)) := by push_cast; omega
        simp only [if_neg hp, if_neg c, if_neg h1]

theorem knight_tail_eq (m : Libm) (al : Bool) (n base : ℕ) (idx : ℤ) :
    knight_tail m al n base idx =
      knight_segment m al n base idx 1 ++ knight_segment m al n base idx 2 := by
  simp [knight_tail, segments, List.range']

theorem mem_knight_tail (m : Libm) (al : Bool) (n base : ℕ) (idx : ℤ)
    (hidx : 0 ≤ idx ∧ idx < n) (hmax : n + segments ≤ INT_MAX) (w : Write)
    (hw : w ∈ knight_tail m al n base idx) :
    0 ≤ w.ch ∧ w.ch < n ∧ w.ch ≠ idx ∧
      ((w.ch = idx - 1 ∨ w.ch = idx + 1) ∧ w.duty = (set_led_inv al 0 (tail_duty m base 1)).duty ∨
       (w.ch = idx - 2 ∨ w.ch = idx + 2) ∧ w.duty = (set_led_inv al 0 (tail_duty m base 2)).duty) := by
  unfold INT_MAX segments at hmax
  have e1 : wrap_int (idx - 1) = idx - 1 := wrap_int_eq (by omega) (by omega)
  have e2 : wrap_int (idx + 1) = idx + 1 := wrap_int_eq (by omega) (by omega)
  have e3 : wrap_int (idx - 2) = idx - 2 := wrap_int_eq (by omega) (by omega)
  have e4 : wrap_int (idx + 2) = idx + 2 := wrap_int_eq (by omega) (by omega)
  rw [knight_tail_eq] at hw
  simp only [knight_segment, Nat.cast_one, Nat.cast_ofNat, e1, e2, e3, e4, List.mem_append] at hw
  rcases hw with (hw | hw) | (hw | hw)
  all_goals
    split_ifs at hw with c
    · rw [List.mem_singleton] at hw
      subst hw
      simp only [set_led_inv]
      refine ⟨by omega, by omega, by omega, ?_⟩
      simp
    · simp at hw

theorem last_written_cons (w : Write) (ws : List Write) (p : ℤ) :
    last_written (w :: ws) p =
      match last_written ws p with
      | some d => some d
      | none => if w.ch = p then some w.duty else none := rfl

theorem last_written_knight_segment (m : Libm) (al : Bool) (n base : ℕ) (idx : ℤ)
    (hidx : 0 ≤ idx ∧ idx < n) (hmax : n + segments ≤ INT_MAX) (s : ℕ)
    (hs : 1 ≤ s ∧ s ≤ segments) (p : ℤ) :
    last_written (knight_segment m al n base idx s) p =
      if 0 ≤ p ∧ p < n ∧ (p - idx).natAbs = s then
        some (set_led_inv al p (tail_duty m base s)).duty
      else none := by
  unfold INT_MAX segments at hmax
  unfold segments at hs
  have e1 : wrap_int (idx - s) = idx - s := wrap_int_eq (by omega) (by omega)
  have e2 : wrap_int (idx + s) = idx + s := wrap_int_eq (by omega) (by omega)
  simp only [knight_segment, e1, e2, set_led_inv_duty]
  by_cases c : 0 ≤ p ∧ p < n ∧ (p - idx).natAbs = s
  · rw [if_pos c]
    by_cases hl : p = idx - s
    · have h1 : 0 ≤ idx - (s : ℤ) := by omega
      have h2 : ¬ (idx + (s : ℤ) = p) := by omega
      by_cases h3 : idx + (s : ℤ) < n
      · simp only [if_pos h1, if_pos h3, List.singleton_append, last_written_cons, last_written,
          set_led_inv_ch, set_led_inv_duty, if_neg h2, if_pos hl.symm]
      · simp only [if_pos h1, if_neg h3, List.append_nil, last_written_cons, last_written,
          set_led_inv_ch, set_led_inv_duty, if_pos hl.symm]
    · have hr : idx + (s : ℤ) = p := by omega
      have h3 : idx + (s : ℤ) < n := by omega
      by_cases h1 : 0 ≤ idx - (s : ℤ)
      · simp only [if_pos h1, if_pos h3, List.singleton_append, last_written_cons, last_written,
          set_led_inv_ch, set_led_inv_duty, if_pos hr]
      · simp only [if_neg h1, if_pos h3, List.nil_append, last_written_cons, last_written,
          set_led_inv_ch, set_led_inv_duty, if_pos hr]
  · rw [if_neg c]
    apply last_written_none_of_forall
    intro w hw
    rw [List.mem_append] at hw
    rcases hw with hw | hw
    · split_ifs at hw with h
      · rw [List.mem_singleton] at hw
        subst hw
        simp only [set_led_inv_ch]
        omega
      · simp at hw
    · split_ifs at hw with h
      · rw [List.mem_singleton] at hw
        subst hw
        simp only [set_led_inv_ch]
        omega
      · simp at hw

theorem last_written_knight_frame (m : Libm) (n base : ℕ) (idx : ℤ)
    (hidx : 0 ≤ idx ∧ idx < n) (hmax : n + segments ≤ INT_MAX) (p : ℤ)
    (hp : 0 ≤ p ∧ p < n) :
    last_written (knight_frame m false n base idx) p = some (knight_duty m base idx p) := by
  have s1 := last_written_knight_segment m false n base idx hidx hmax 1 (by decide) p
  have s2 := last_written_knight_segment m false n base idx hidx hmax 2 (by decide) p
  unfold knight_frame
  rw [last_written_append, last_written_cons, knight_tail_eq, last_written_append, s1, s2,
    last_written_set_all]
  simp only [set_led_inv_duty, set_led_inv_ch, Bool.false_eq_true, if_false, knight_duty, segments]
  by_cases h0 : p = idx
  · have a1 : ¬ (0 ≤ p ∧ p < (n : ℤ) ∧ (p - idx).natAbs = 1) := by omega
    have a2 : ¬ (0 ≤ p ∧ p < (n : ℤ) ∧ (p - idx).natAbs = 2) := by omega
    simp only [if_neg a1, if_neg a2, if_pos h0, if_pos h0.symm]
  · have h0' : ¬ (idx = p) := fun h => h0 h.symm
    by_cases h1 : (p - idx).natAbs = 1
    · have a1 : 0 ≤ p ∧ p < (n : ℤ) ∧ (p - idx).natAbs = 1 := ⟨hp.1, hp.2, h1⟩
      have a2 : ¬ (0 ≤ p ∧ p < (n : ℤ) ∧ (p - idx).natAbs = 2) := by omega
      rw [if_pos a1, if_neg a2, if_neg h0, if_pos (show (p - idx).natAbs ≤ 2 by omega), h1]
    · by_cases h2 : (p - idx).natAbs = 2
      · have a1 : ¬ (0 ≤ p ∧ p < (n : ℤ) ∧ (p - idx).natAbs = 1) := by omega
        have a2 : 0 ≤ p ∧ p < (n : ℤ) ∧ (p - idx).natAbs = 2 := ⟨hp.1, hp.2, h2⟩
        rw [if_neg a1, if_pos a2, if_neg h0, if_pos (show (p - idx).natAbs ≤ 2 by omega), h2]
      · have a1 : ¬ (0 ≤ p ∧ p < (n : ℤ) ∧ (p - idx).natAbs = 1) := by omega
        have a2 : ¬ (0 ≤ p ∧ p < (n : ℤ) ∧ (p - idx).natAbs = 2) := by omega
        have a3 : ¬ ((p - idx).natAbs ≤ 2) := by omega
        simp only [if_neg a1, if_neg a2, if_neg h0, if_neg h0', if_neg a3, if_pos hp]

/-! ## Values of the constants -/

theorem rnd_exact {x : ℚ} {e m : ℤ} (he : -126 ≤ e) (h1 : (2 : ℚ) ^ e ≤ |x|)
    (h2 : |x| < (2 : ℚ) ^ (e + 1)) (hx : x = m * (2 : ℚ) ^ (e - 23)) : rnd x = x := by
  have hu : (0 : ℚ) < (2 : ℚ) ^ (e - 23) := by positivity
  rw [rnd_eq he h1 h2 (m := m), ← hx]
  rw [hx, mul_div_assoc, div_self hu.ne', mul_one, sub_self, abs_zero]
  norm_num

theorem rnd_one : rnd 1 = 1 := by
  simpa using rnd_two_zpow (z := 0) (by norm_num)

theorem rnd_two : rnd 2 = 2 := by
  simpa using rnd_two_zpow (z := 1) (by norm_num)

theorem rnd_half : rnd (1 / 2) = 1 / 2 := by
  have h := rnd_two_zpow (z := -1) (by norm_num)
  have e : (2 : ℚ) ^ (-1 : ℤ) = 1 / 2 := by norm_num
  rwa [e] at h

theorem rnd_neg_one : rnd (-1) = -1 :=
  rnd_exact (e := 0) (m := -8388608) (by norm_num) (by norm_num) (by norm_num) (by norm_num)

theorem rnd_two_pow (j : ℕ) : rnd ((2 : ℚ) ^ j) = (2 : ℚ) ^ j := by
  have h := rnd_two_zpow (z := (j : ℤ)) (by omega)
  rwa [zpow_natCast] at h

theorem rnd_two_pow_half (j : ℕ) : rnd ((2 : ℚ) ^ j / 2) = (2 : ℚ) ^ j / 2 := by
  have h := rnd_two_zpow (z := (j : ℤ) - 1) (by omega)
  have e : (2 : ℚ) ^ ((j : ℤ) - 1) = (2 : ℚ) ^ j / 2 := by
    rw [zpow_sub₀ (by norm_num), zpow_natCast, zpow_one]
  rwa [e] at h

theorem LEDC_MAX_DUTY_eq : LEDC_MAX_DUTY = 8191 := by decide

theorem tail_decay_eq : tail_decay = 7549747 / 16777216 := by
  unfold tail_decay
  rw [rnd_eq (e := -2) (m := 15099494) (by norm_num) (by norm_num [abs_of_pos])
    (by norm_num [abs_of_pos]) (by norm_num [abs_lt])]
  norm_num

theorem M_PI_f_eq : M_PI_f = 13176795 / 4194304 := by
  unfold M_PI_f M_PI
  rw [rnd_eq (e := 1) (m := 13176795) (by norm_num) (by norm_num [abs_of_pos])
    (by norm_num [abs_of_pos]) (by norm_num [abs_lt])]
  norm_num

theorem u2f_zero : u2f 0 = 0 := by
  simp [u2f, rnd_zero]

theorem u2f_one : u2f 1 = 1 := by
  simp [u2f, rnd_one]

theorem u2f_two : u2f 2 = 2 := by
  simp [u2f, rnd_two]

theorem u2f_800 : u2f 800 = 800 := by
  unfold u2f
  exact rnd_exact (e := 9) (m := 13107200) (by norm_num) (by norm_num [abs_of_pos])
    (by norm_num [abs_of_pos]) (by norm_num)

theorem u2f_1600 : u2f 1600 = 1600 := by
  unfold u2f
  exact rnd_exact (e := 10) (m := 13107200) (by norm_num) (by norm_num [abs_of_pos])
    (by norm_num [abs_of_pos]) (by norm_num)

theorem u2f_8191 : u2f 8191 = 8191 := by
  unfold u2f
  exact rnd_exact (e := 12) (m := 16775168) (by norm_num) (by norm_num [abs_of_pos])
    (by norm_num [abs_of_pos]) (by norm_num)

theorem u2f_nonneg (n : ℕ) : 0 ≤ u2f n := rnd_nonneg (Nat.cast_nonneg n)

theorem u2f_mono {a b : ℕ} (h : a ≤ b) : u2f a ≤ u2f b :=
  rnd_mono (Nat.cast_nonneg a) (by exact_mod_cast h)

/-! ## Envelope -/

theorem full_turn : fmul 2 M_PI_f = 13176795 / 2097152 := by
  rw [M_PI_f_eq]
  unfold fmul
  rw [rnd_eq (e := 2) (m := 13176795) (by norm_num) (by norm_num [abs_of_pos])
    (by norm_num [abs_of_pos]) (by norm_num [abs_lt])]
  norm_num

theorem half_turn : fmul (fmul 2 M_PI_f) (1 / 2) = M_PI_f := by
  rw [full_turn, M_PI_f_eq]
  unfold fmul
  rw [rnd_eq (e := 1) (m := 13176795) (by norm_num) (by norm_num [abs_of_pos])
    (by norm_num [abs_of_pos]) (by norm_num [abs_lt])]
  norm_num

theorem breath_phase_zero : breath_phase 0 = 0 := by
  simp [breath_phase, fdiv, u2f_zero, rnd_zero]

theorem breath_phase_800 : breath_phase 800 = 1 / 2 := by
  have e : 800 % 4294967296 % BREATH_PERIOD_MS = 800 := by decide
  unfold breath_phase
  rw [e, show BREATH_PERIOD_MS = 1600 from rfl, u2f_800, u2f_1600]
  unfold fdiv
  rw [show (800 : ℚ) / 1600 = 1 / 2 by norm_num, rnd_half]

theorem ease_sine_zero (m : Libm) (h0 : m.cosf 0 = 1) : ease_sine m 0 = 0 := by
  simp [ease_sine, fmul, fsub, rnd_zero, h0]

theorem ease_sine_half (m : Libm) (hpi : m.cosf M_PI_f = -1) : ease_sine m (1 / 2) = 1 := by
  unfold ease_sine
  rw [half_turn, hpi]
  unfold fsub fmul
  rw [show (1 : ℚ) - -1 = 2 by norm_num, rnd_two, show (1 : ℚ) / 2 * 2 = 1 by norm_num, rnd_one]

theorem ease_sine_range (m : Libm) (hb : CosfBounded m) (x : F32) :
    0 ≤ ease_sine m x ∧ ease_sine m x ≤ 1 := by
  obtain ⟨h1, h2⟩ := hb (fmul (fmul 2 M_PI_f) x)
  unfold ease_sine
  generalize m.cosf (fmul (fmul 2 M_PI_f) x) = c at h1 h2
  have a0 : 0 ≤ fsub 1 c := rnd_nonneg (by linarith)
  have a2 : fsub 1 c ≤ 2 := by
    have := rnd_mono (x := 1 - c) (y := 2) (by linarith) (by linarith)
    rwa [rnd_two] at this
  refine ⟨rnd_nonneg (by positivity), ?_⟩
  have := rnd_mono (x := 1 / 2 * fsub 1 c) (y := 1) (by positivity) (by linarith)
  rwa [rnd_one] at this

theorem f2u_le_of_le {x : ℚ} {n : ℕ} (h : x ≤ n) : f2u x ≤ n :=
  Nat.floor_le_of_le h

theorem breath_duty_le (m : Libm) (hb : CosfBounded m) (t : ℕ) :
    breath_duty_from_time m t ≤ LEDC_MAX_DUTY := by
  obtain ⟨h0, h1⟩ := ease_sine_range m hb (breath_phase t)
  unfold breath_duty_from_time envelope
  rw [LEDC_MAX_DUTY_eq, u2f_8191]
  apply f2u_le_of_le
  have := rnd_mono (x := ease_sine m (breath_phase t) * 8191) (y := 8191) (by positivity)
    (by linarith)
  have e : rnd 8191 = 8191 := by simpa [u2f] using u2f_8191
  rw [e] at this
  exact_mod_cast this

theorem breath_duty_zero (m : Libm) (h0 : m.cosf 0 = 1) : breath_duty_from_time m 0 = 0 := by
  unfold breath_duty_from_time envelope
  rw [breath_phase_zero, ease_sine_zero m h0]
  simp [fmul, rnd_zero, f2u]

theorem breath_duty_800 (m : Libm) (hpi : m.cosf M_PI_f = -1) :
    breath_duty_from_time m 800 = 8191 := by
  unfold breath_duty_from_time envelope
  rw [breath_phase_800, ease_sine_half m hpi, LEDC_MAX_DUTY_eq, u2f_8191]
  have e : rnd 8191 = 8191 := by simpa [u2f] using u2f_8191
  unfold fmul f2u
  rw [one_mul, e]
  exact Nat.floor_natCast 8191

theorem breath_phase_add_period (t : ℕ) (ht : t + BREATH_PERIOD_MS < 4294967296) :
    breath_phase (t + BREATH_PERIOD_MS) = breath_phase t := by
  unfold breath_phase
  have : (t + BREATH_PERIOD_MS) % 4294967296 % BREATH_PERIOD_MS
      = t % 4294967296 % BREATH_PERIOD_MS := by
    unfold BREATH_PERIOD_MS at *
    omega
  rw [this]

/-! ## Tail duties -/

theorem tail_decay_nonneg : 0 ≤ tail_decay := by
  rw [tail_decay_eq]; norm_num

theorem tail_decay_le_half : tail_decay ≤ 1 / 2 := by
  rw [tail_decay_eq]; norm_num

theorem f2u_mono {x y : ℚ} (h : x ≤ y) : f2u x ≤ f2u y := Nat.floor_mono h

theorem scaled_mono (base : ℕ) {f g : ℚ} (hf : 0 ≤ f) (h : f ≤ g) :
    f2u (fmul (u2f base) f) ≤ f2u (fmul (u2f base) g) := by
  have hB := u2f_nonneg base
  exact f2u_mono (rnd_mono (mul_nonneg hB hf) (mul_le_mul_of_nonneg_left h hB))

theorem scaled_zero (f : ℚ) : f2u (fmul (u2f 0) f) = 0 := by
  simp [u2f_zero, fmul, rnd_zero, f2u]

theorem scaled_lt (base : ℕ) (hbase : 0 < base) {f : ℚ} (hf0 : 0 ≤ f) (hf : f ≤ 1 / 2) :
    f2u (fmul (u2f base) f) < base := by
  have hlo : 2 ^ Nat.log 2 base ≤ base := Nat.pow_log_le_self 2 (by omega)
  have hhi : base < 2 ^ (Nat.log 2 base + 1) := Nat.lt_pow_succ_log_self (by norm_num) base
  generalize Nat.log 2 base = j at hlo hhi
  have hB0 := u2f_nonneg base
  have hB : u2f base ≤ (2 : ℚ) ^ (j + 1) := by
    have := rnd_mono (x := (base : ℚ)) (y := (2 : ℚ) ^ (j + 1)) (Nat.cast_nonneg base)
      (by exact_mod_cast hhi.le)
    rwa [rnd_two_pow] at this
  have hpos : (0 : ℚ) < (2 : ℚ) ^ j := by positivity
  rcases hlo.lt_or_eq with hlt | heq
  · have hy : u2f base * f ≤ (2 : ℚ) ^ j := by
      calc u2f base * f ≤ (2 : ℚ) ^ (j + 1) * (1 / 2) := mul_le_mul hB hf hf0 (by positivity)
        _ = (2 : ℚ) ^ j := by rw [pow_succ]; ring
    have hr : fmul (u2f base) f ≤ ((2 ^ j : ℕ) : ℚ) := by
      have := rnd_mono (mul_nonneg hB0 hf0) hy
      rw [rnd_two_pow] at this
      unfold fmul
      exact_mod_cast this
    exact lt_of_le_of_lt (f2u_le_of_le hr) hlt
  · have hBe : u2f base = (2 : ℚ) ^ j := by
      unfold u2f
      rw [← heq]
      push_cast
      exact rnd_two_pow j
    have hy : u2f base * f ≤ (2 : ℚ) ^ j / 2 := by
      rw [hBe]
      calc (2 : ℚ) ^ j * f ≤ (2 : ℚ) ^ j * (1 / 2) := mul_le_mul_of_nonneg_left hf hpos.le
        _ = (2 : ℚ) ^ j / 2 := by ring
    have hr : fmul (u2f base) f ≤ (2 : ℚ) ^ j / 2 := by
      have := rnd_mono (mul_nonneg hB0 hf0) hy
      rwa [rnd_two_pow_half] at this
    have hb : (base : ℚ) = (2 : ℚ) ^ j := by
      rw [← heq]
      push_cast
      rfl
    have hlt : fmul (u2f base) f < (base : ℚ) := by
      rw [hb]
      linarith
    unfold f2u
    exact (Nat.floor_lt (rnd_nonneg (mul_nonneg hB0 hf0))).mpr hlt

theorem scaled_le (base : ℕ) {f : ℚ} (hf0 : 0 ≤ f) (hf : f ≤ 1 / 2) :
    f2u (fmul (u2f base) f) ≤ base := by
  rcases Nat.eq_zero_or_pos base with h | h
  · subst h; rw [scaled_zero]
  · exact (scaled_lt base h hf0 hf).le

theorem tail_duty_one (m : Libm) (hp : PowfDecays m) (base : ℕ) :
    tail_duty m base 1 = f2u (fmul (u2f base) tail_decay) := by
  unfold tail_duty
  rw [u2f_one, hp.1]

theorem tail_duty_two_le_one (m : Libm) (hp : PowfDecays m) (base : ℕ) :
    tail_duty m base 2 ≤ tail_duty m base 1 := by
  unfold tail_duty
  rw [u2f_one, u2f_two]
  exact scaled_mono base hp.2.1 hp.2.2

theorem tail_duty_one_le (m : Libm) (hp : PowfDecays m) (base : ℕ) :
    tail_duty m base 1 ≤ base := by
  rw [tail_duty_one m hp]
  exact scaled_le base tail_decay_nonneg tail_decay_le_half

theorem tail_duty_one_lt (m : Libm) (hp : PowfDecays m) (base : ℕ) (hbase : 0 < base) :
    tail_duty m base 1 < base := by
  rw [tail_duty_one m hp]
  exact scaled_lt base hbase tail_decay_nonneg tail_decay_le_half

theorem tail_duty_8191 (m : Libm) (h1 : m.powf tail_decay 1 = tail_decay) :
    tail_duty m 8191 1 = 3685 := by
  unfold tail_duty
  rw [u2f_one, h1, u2f_8191, tail_decay_eq]
  unfold fmul
  rw [rnd_eq (e := 11) (m := 15097651) (by norm_num) (by norm_num [abs_of_pos])
    (by norm_num [abs_of_pos]) (by norm_num [abs_lt])]
  unfold f2u
  rw [Nat.floor_eq_iff (by norm_num)]
  norm_num

theorem spec_duty_8191 : spec_knight_duty 8191 1 0 = 3686 := by
  have e : ((0 : ℤ) - 1).natAbs = 1 := by decide
  simp only [spec_knight_duty, segments, e]
  rw [if_neg (by decide), if_pos (by decide), round_eq, Int.floor_eq_iff]
  norm_num

/-! ## The reference C library meets the assumptions -/

theorem cosf_ref_bounded : CosfBounded libm_ref := by
  intro x
  exact ⟨le_max_left _ _, max_le (by norm_num) (min_le_left _ _)⟩

theorem cosf_ref_exact : CosfExact libm_ref := by
  have hpi : M_PI_f ≠ 0 := by rw [M_PI_f_eq]; norm_num
  have r0 : rne (0 : ℚ) = 0 := by simpa using rne_intCast 0
  have r1 : rne (1 : ℚ) = 1 := by simpa using rne_intCast 1
  constructor
  · show cosf_ref 0 = 1
    simp [cosf_ref, r0, rnd_one]
  · show cosf_ref M_PI_f = -1
    simp [cosf_ref, div_self hpi, r1, rnd_neg_one]

theorem rnd_tail_decay : rnd tail_decay = tail_decay := by
  rw [tail_decay_eq]
  exact rnd_exact (e := -2) (m := 15099494) (by norm_num) (by norm_num [abs_of_pos])
    (by norm_num [abs_of_pos]) (by norm_num)

theorem powf_ref_decays : PowfDecays libm_ref := by
  have h0 := tail_decay_nonneg
  have h1 := tail_decay_le_half
  have e1 : libm_ref.powf tail_decay 1 = tail_decay := by
    show rnd (tail_decay ^ ⌊(1 : ℚ)⌋₊) = tail_decay
    rw [Nat.floor_one, pow_one, rnd_tail_decay]
  refine ⟨e1, ?_, ?_⟩
  · exact rnd_nonneg (by positivity)
  · rw [e1]
    show rnd (tail_decay ^ ⌊(2 : ℚ)⌋₊) ≤ tail_decay
    have e2 : ⌊(2 : ℚ)⌋₊ = 2 := by
      rw [Nat.floor_eq_iff (by norm_num)]
      norm_num
    rw [e2]
    have := rnd_mono (x := tail_decay ^ 2) (y := tail_decay) (by positivity) (by nlinarith)
    rwa [rnd_tail_decay] at this

/-! ## Facts about a whole frame -/

theorem mem_set_all (al : Bool) (n d : ℕ) (w : Write) (hw : w ∈ set_all al n d) :
    0 ≤ w.ch ∧ w.ch < n ∧ w.duty = (set_led_inv al 0 d).duty := by
  unfold set_all at hw
  rw [List.mem_map] at hw
  obtain ⟨i, hi, rfl⟩ := hw
  rw [List.mem_range] at hi
  simp only [set_led_inv_ch, set_led_inv_duty]
  exact ⟨by omega, by omega, trivial⟩

theorem mem_knight_tail_duty (m : Libm) (al : Bool) (n base : ℕ) (idx : ℤ) (w : Write)
    (hw : w ∈ knight_tail m al n base idx) :
    w.duty = (set_led_inv al 0 (tail_duty m base 1)).duty ∨
      w.duty = (set_led_inv al 0 (tail_duty m base 2)).duty := by
  rw [knight_tail_eq] at hw
  simp only [knight_segment, List.mem_append] at hw
  rcases hw with (hw | hw) | (hw | hw)
  all_goals
    split_ifs at hw with c
    · rw [List.mem_singleton] at hw
      subst hw
      simp [set_led_inv_duty]
    · simp at hw

theorem mem_knight_frame (m : Libm) (al : Bool) (n base : ℕ) (idx : ℤ)
    (hidx : 0 ≤ idx ∧ idx < n) (hmax : n + segments ≤ INT_MAX) (w : Write)
    (hw : w ∈ knight_frame m al n base idx) : 0 ≤ w.ch ∧ w.ch < n := by
  unfold knight_frame at hw
  rw [List.mem_append, List.mem_cons] at hw
  rcases hw with hw | hw | hw
  · have := mem_set_all al n 0 w hw
    exact ⟨this.1, this.2.1⟩
  · subst hw
    exact hidx
  · have := mem_knight_tail m al n base idx hidx hmax w hw
    exact ⟨this.1, this.2.1⟩

theorem last_written_out_of_range (m : Libm) (al : Bool) (n base : ℕ) (idx : ℤ)
    (hidx : 0 ≤ idx ∧ idx < n) (hmax : n + segments ≤ INT_MAX) (p : ℤ)
    (hp : ¬ (0 ≤ p ∧ p < n)) : last_written (knight_frame m al n base idx) p = none := by
  apply last_written_none_of_forall
  intro w hw h
  have := mem_knight_frame m al n base idx hidx hmax w hw
  rw [h] at this
  exact hp this

theorem u32_sub_max (d : ℕ) (hd : d ≤ LEDC_MAX_DUTY) :
    u32_sub LEDC_MAX_DUTY d = LEDC_MAX_DUTY - d := by
  rw [LEDC_MAX_DUTY_eq] at *
  unfold u32_sub
  omega

theorem set_led_inv_duty_le (al : Bool) (i : ℤ) (d : ℕ) (hd : d ≤ LEDC_MAX_DUTY) :
    (set_led_inv al i d).duty ≤ LEDC_MAX_DUTY := by
  rw [set_led_inv_duty]
  cases al
  · simpa using hd
  · simp only [if_true]
    rw [u32_sub_max d hd]
    omega

theorem knight_duty_lt (m : Libm) (hp : PowfDecays m) (base : ℕ) (hbase : 0 < base)
    (idx p : ℤ) (hne : p ≠ idx) : knight_duty m base idx p < base := by
  have h1 := tail_duty_one_lt m hp base hbase
  have h2 := tail_duty_two_le_one m hp base
  unfold knight_duty segments
  rw [if_neg hne]
  split_ifs with c
  · have : (p - idx).natAbs = 1 ∨ (p - idx).natAbs = 2 := by omega
    rcases this with e | e <;> rw [e] <;> omega
  · exact hbase

theorem knight_duty_antitone (m : Libm) (hp : PowfDecays m) (base : ℕ) (idx p q : ℤ)
    (h : (p - idx).natAbs ≤ (q - idx).natAbs) :
    knight_duty m base idx q ≤ knight_duty m base idx p := by
  have h1 := tail_duty_one_le m hp base
  have h2 := tail_duty_two_le_one m hp base
  unfold knight_duty segments
  by_cases hq : q = idx
  · have hp' : p = idx := by omega
    rw [if_pos hq, if_pos hp']
  · rw [if_neg hq]
    by_cases hp' : p = idx
    · rw [if_pos hp']
      split_ifs with c
      · have : (q - idx).natAbs = 1 ∨ (q - idx).natAbs = 2 := by omega
        rcases this with e | e <;> rw [e] <;> omega
      · omega
    · rw [if_neg hp']
      by_cases c : (q - idx).natAbs ≤ 2
      · rw [if_pos c, if_pos (le_trans h c)]
        have hq1 : (q - idx).natAbs = 1 ∨ (q - idx).natAbs = 2 := by omega
        have hp1 : (p - idx).natAbs = 1 ∨ (p - idx).natAbs = 2 := by omega
        rcases hq1 with e | e <;> rcases hp1 with e' | e' <;> rw [e, e'] <;> omega
      · rw [if_neg c]
        exact Nat.zero_le _

theorem frame_full_base (m : Libm) (hpow : m.powf tail_decay 1 = tail_decay) :
    duty_vector 3 (knight_frame m false 3 8191 1) = [some 3685, some 8191, some 3685] := by
  have h0 := last_written_knight_frame m 3 8191 1 (by decide) (by decide) 0 (by decide)
  have h1 := last_written_knight_frame m 3 8191 1 (by decide) (by decide) 1 (by decide)
  have h2 := last_written_knight_frame m 3 8191 1 (by decide) (by decide) 2 (by decide)
  have e0 : knight_duty m 8191 1 0 = 3685 := by
    have e : ((0 : ℤ) - 1).natAbs = 1 := by decide
    simp only [knight_duty, segments, e]
    rw [if_neg (by decide), if_pos (by decide), tail_duty_8191 m hpow]
  have e1 : knight_duty m 8191 1 1 = 8191 := by
    simp [knight_duty]
  have e2 : knight_duty m 8191 1 2 = 3685 := by
    have e : ((2 : ℤ) - 1).natAbs = 1 := by decide
    simp only [knight_duty, segments, e]
    rw [if_neg (by decide), if_pos (by decide), tail_duty_8191 m hpow]
  rw [e0] at h0
  rw [e1] at h1
  rw [e2] at h2
  have hr : List.range 3 = [0, 1, 2] := by decide
  simp only [duty_vector, hr, List.map_cons, List.map_nil]
  norm_num
  exact ⟨h0, h1, h2⟩

/-! ## The envelope across the wrap of the 32-bit time -/

theorem rnd_nonpos {x : ℚ} (hx : x ≤ 0) : rnd x ≤ 0 := by
  unfold rnd
  have hu := f32_ulp_pos x
  have h0 : rne (x / f32_ulp x) ≤ (0 : ℤ) := by
    have := rne_mono (div_nonpos_of_nonpos_of_nonneg hx hu.le)
    rwa [show (0 : ℚ) = ((0 : ℤ) : ℚ) by norm_num, rne_intCast] at this
  have : (rne (x / f32_ulp x) : ℚ) ≤ 0 := by exact_mod_cast h0
  exact mul_nonpos_of_nonpos_of_nonneg this hu.le

theorem rnd_quarter : rnd (1 / 4) = 1 / 4 := by
  have h := rnd_two_zpow (z := -2) (by norm_num)
  have e : (2 : ℚ) ^ (-2 : ℤ) = 1 / 4 := by norm_num
  rwa [e] at h

theorem rnd_half_max : rnd (8191 / 2) = 8191 / 2 :=
  rnd_exact (e := 11) (m := 16775168) (by norm_num) (by norm_num [abs_of_pos])
    (by norm_num [abs_of_pos]) (by norm_num)

theorem rnd_quarter_max : rnd (8191 / 4) = 8191 / 4 :=
  rnd_exact (e := 10) (m := 16775168) (by norm_num) (by norm_num [abs_of_pos])
    (by norm_num [abs_of_pos]) (by norm_num)

/-- A cosine that is not positive at the argument of time `t` gives a duty of at
least half the range. -/
theorem breath_duty_ge_of_cos_nonpos (m : Libm) (t : ℕ)
    (h : m.cosf (fmul (fmul 2 M_PI_f) (breath_phase t)) ≤ 0) :
    4095 ≤ breath_duty_from_time m t := by
  unfold breath_duty_from_time envelope ease_sine
  generalize m.cosf (fmul (fmul 2 M_PI_f) (breath_phase t)) = c at h
  have a1 : 1 ≤ fsub 1 c := by
    have := rnd_mono (x := 1) (y := 1 - c) (by norm_num) (by linarith)
    rwa [rnd_one] at this
  have a2 : 1 / 2 ≤ fmul (1 / 2) (fsub 1 c) := by
    have := rnd_mono (x := 1 / 2) (y := 1 / 2 * fsub 1 c) (by norm_num) (by linarith)
    rwa [rnd_half] at this
  rw [LEDC_MAX_DUTY_eq, u2f_8191]
  have a3 : (8191 : ℚ) / 2 ≤ fmul (fmul (1 / 2) (fsub 1 c)) 8191 := by
    have := rnd_mono (x := 8191 / 2) (y := fmul (1 / 2) (fsub 1 c) * 8191) (by norm_num)
      (by linarith)
    rwa [rnd_half_max] at this
  unfold f2u
  apply Nat.le_floor
  push_cast
  linarith

/-- A cosine in `[1/2, 1]` at the argument of time `t` gives a duty below a quarter
of the range. -/
theorem breath_duty_le_of_cos_ge_half (m : Libm) (t : ℕ)
    (h1 : 1 / 2 ≤ m.cosf (fmul (fmul 2 M_PI_f) (breath_phase t)))
    (h2 : m.cosf (fmul (fmul 2 M_PI_f) (breath_phase t)) ≤ 1) :
    breath_duty_from_time m t ≤ 2047 := by
  unfold breath_duty_from_time envelope ease_sine
  generalize m.cosf (fmul (fmul 2 M_PI_f) (breath_phase t)) = c at h1 h2
  have a0 : 0 ≤ fsub 1 c := rnd_nonneg (by linarith)
  have a1 : fsub 1 c ≤ 1 / 2 := by
    have := rnd_mono (x := 1 - c) (y := 1 / 2) (by linarith) (by linarith)
    rwa [rnd_half] at this
  have b0 : 0 ≤ fmul (1 / 2) (fsub 1 c) := rnd_nonneg (by positivity)
  have b1 : fmul (1 / 2) (fsub 1 c) ≤ 1 / 4 := by
    have := rnd_mono (x := 1 / 2 * fsub 1 c) (y := 1 / 4) (by positivity) (by linarith)
    rwa [rnd_quarter] at this
  rw [LEDC_MAX_DUTY_eq, u2f_8191]
  have c0 : 0 ≤ fmul (fmul (1 / 2) (fsub 1 c)) 8191 := rnd_nonneg (by positivity)
  have c1 : fmul (fmul (1 / 2) (fsub 1 c)) 8191 ≤ 8191 / 4 := by
    have := rnd_mono (x := fmul (1 / 2) (fsub 1 c) * 8191) (y := 8191 / 4) (by positivity)
      (by linarith)
    rwa [rnd_quarter_max] at this
  have : f2u (fmul (fmul (1 / 2) (fsub 1 c)) 8191) < 2048 := by
    unfold f2u
    rw [Nat.floor_lt c0]
    push_cast
    linarith
  omega

theorem u2f_895 : u2f 895 = 895 := by
  unfold u2f
  exact rnd_exact (e := 9) (m := 14663680) (by norm_num) (by norm_num [abs_of_pos])
    (by norm_num [abs_of_pos]) (by norm_num)

theorem u2f_1599 : u2f 1599 = 1599 := by
  unfold u2f
  exact rnd_exact (e := 10) (m := 13099008) (by norm_num) (by norm_num [abs_of_pos])
    (by norm_num [abs_of_pos]) (by norm_num)

/-- Argument of the cosine at the last `uint32_t` time, `2^32 - 1`, whose residue
modulo 1600 is 895. -/
theorem cos_arg_last : fmul (fmul 2 M_PI_f) (breath_phase 4294967295) = 14741539 / 4194304 := by
  have e : 4294967295 % 4294967296 % BREATH_PERIOD_MS = 895 := by decide
  have hph : breath_phase 4294967295 = 9384755 / 16777216 := by
    unfold breath_phase
    rw [e, show BREATH_PERIOD_MS = 1600 from rfl, u2f_895, u2f_1600]
    unfold fdiv
    rw [rnd_eq (e := -1) (m := 9384755) (by norm_num) (by norm_num [abs_of_pos])
      (by norm_num [abs_of_pos]) (by norm_num [abs_lt])]
    norm_num
  rw [hph, full_turn]
  unfold fmul
  rw [rnd_eq (e := 1) (m := 14741539) (by norm_num) (by norm_num [abs_of_pos])
    (by norm_num [abs_of_pos]) (by norm_num [abs_lt])]
  norm_num

/-- Argument of the cosine at `2^32 - 1 + 1600`, which the `uint32_t` parameter
receives as 1599. -/
theorem cos_arg_wrapped :
    fmul (fmul 2 M_PI_f) (breath_phase (4294967295 + 1600)) = 13168559 / 2097152 := by
  have e : (4294967295 + 1600) % 4294967296 % BREATH_PERIOD_MS = 1599 := by decide
  have hph : breath_phase (4294967295 + 1600) = 8383365 / 8388608 := by
    unfold breath_phase
    rw [e, show BREATH_PERIOD_MS = 1600 from rfl, u2f_1599, u2f_1600]
    unfold fdiv
    rw [rnd_eq (e := -1) (m := 16766730) (by norm_num) (by norm_num [abs_of_pos])
      (by norm_num [abs_of_pos]) (by norm_num [abs_lt])]
    norm_num
  rw [hph, full_turn]
  unfold fmul
  rw [rnd_eq (e := 2) (m := 13168559) (by norm_num) (by norm_num [abs_of_pos])
    (by norm_num [abs_of_pos]) (by norm_num [abs_lt])]
  norm_num

theorem cosf_ref_last : cosf_ref (14741539 / 4194304) ≤ 0 := by
  have hk : rne ((14741539 / 4194304 : ℚ) / M_PI_f) = 1 := by
    rw [M_PI_f_eq]
    exact rne_eq_of_abs_lt _ 1 (by norm_num [abs_lt])
  simp only [cosf_ref, hk]
  rw [M_PI_f_eq]
  refine max_le (by norm_num) (le_trans (min_le_right _ _) ?_)
  apply rnd_nonpos
  norm_num

theorem cosf_ref_wrapped :
    1 / 2 ≤ cosf_ref (13168559 / 2097152) ∧ cosf_ref (13168559 / 2097152) ≤ 1 := by
  have hk : rne ((13168559 / 2097152 : ℚ) / M_PI_f) = 2 := by
    rw [M_PI_f_eq]
    exact rne_eq_of_abs_lt _ 2 (by norm_num [abs_lt])
  refine ⟨?_, (cosf_ref_bounded _).2⟩
  simp only [cosf_ref, hk]
  rw [M_PI_f_eq]
  refine le_trans ?_ (le_max_right _ _)
  refine le_min (by norm_num) ?_
  have := rnd_mono (x := 1 / 2)
    (y := if (2 : ℤ) % 2 = 0 then
        1 - ((13168559 / 2097152 : ℚ) - ((2 : ℤ) : ℚ) * (13176795 / 4194304)) ^ 2 / 2 +
          ((13168559 / 2097152 : ℚ) - ((2 : ℤ) : ℚ) * (13176795 / 4194304)) ^ 4 / 24 -
          ((13168559 / 2097152 : ℚ) - ((2 : ℤ) : ℚ) * (13176795 / 4194304)) ^ 6 / 720 +
          ((13168559 / 2097152 : ℚ) - ((2 : ℤ) : ℚ) * (13176795 / 4194304)) ^ 8 / 40320
      else
        -(1 - ((13168559 / 2097152 : ℚ) - ((2 : ℤ) : ℚ) * (13176795 / 4194304)) ^ 2 / 2 +
          ((13168559 / 2097152 : ℚ) - ((2 : ℤ) : ℚ) * (13176795 / 4194304)) ^ 4 / 24 -
          ((13168559 / 2097152 : ℚ) - ((2 : ℤ) : ℚ) * (13176795 / 4194304)) ^ 6 / 720 +
          ((13168559 / 2097152 : ℚ) - ((2 : ℤ) : ℚ) * (13176795 / 4194304)) ^ 8 / 40320))
    (by norm_num) (by norm_num)
  rwa [rnd_half] at this

/-! ## The claims -/

/-- C1 (amended). For every elapsed time `t` and every sweep state with index in
`[0, n-1]`, the last value one tick of `pattern_knight` writes to output `p` of
`0 .. n-1` is `base = breath_duty_from_time t` at `p = index`, the truncation
`(uint32_t)((float)base * powf(0.45f, (float)s))` at distance `s = 1, 2` from the
index, and `0` at every other position. -/
theorem knight_tick_duty_vector (m : Libm) (n t : ℕ) (st : SweepState) (p : ℤ)
    (hidx : 0 ≤ st.idx ∧ st.idx < n) (hmax : n + segments ≤ INT_MAX)
    (hp : 0 ≤ p ∧ p < n) :
    last_written (pattern_knight_tick m ACTIVE_LOW n t st).1 p =
      some (if p = st.idx then breath_duty_from_time m t
        else if (p - st.idx).natAbs ≤ segments then
          tail_duty m (breath_duty_from_time m t) (p - st.idx).natAbs
        else 0) :=
  last_written_knight_frame m n _ st.idx hidx hmax p hp

theorem knight_tick_duty_vector_witness :
    ((0 : ℤ) ≤ 1 ∧ (1 : ℤ) < (3 : ℕ)) ∧ 3 + segments ≤ INT_MAX ∧
      ((0 : ℤ) ≤ 0 ∧ (0 : ℤ) < (3 : ℕ)) ∧
      last_written (pattern_knight_tick libm_ref ACTIVE_LOW 3 800 ⟨1, -1⟩).1 0 =
        some (if (0 : ℤ) = 1 then breath_duty_from_time libm_ref 800
          else if ((0 : ℤ) - 1).natAbs ≤ segments then
            tail_duty libm_ref (breath_duty_from_time libm_ref 800) ((0 : ℤ) - 1).natAbs
          else 0) :=
  ⟨by decide, by decide, by decide,
    knight_tick_duty_vector libm_ref 3 800 ⟨1, -1⟩ 0 (by decide) (by decide) (by decide)⟩

/-- At `t = 800` with head index 1 output 0 receives 3685, while the rounded
product `round(8191 * 0.45)` is 3686: for the reference library, and for every
library whose cosine is `-1` at `(float)M_PI` and whose `powf(x, 1)` is `x`. -/
theorem knight_tick_round_counterexample :
    (last_written (pattern_knight_tick libm_ref ACTIVE_LOW 3 800 ⟨1, 1⟩).1 0).map Int.ofNat ≠
        some (spec_knight_duty (breath_duty_from_time libm_ref 800) 1 0) ∧
      ¬ ∃ m : Libm, m.cosf M_PI_f = -1 ∧ m.powf tail_decay 1 = tail_decay ∧
        (last_written (pattern_knight_tick m ACTIVE_LOW 3 800 ⟨1, 1⟩).1 0).map Int.ofNat =
          some (spec_knight_duty (breath_duty_from_time m 800) 1 0) := by
  have key : ∀ m : Libm, m.cosf M_PI_f = -1 → m.powf tail_decay 1 = tail_decay →
      (last_written (pattern_knight_tick m ACTIVE_LOW 3 800 ⟨1, 1⟩).1 0).map Int.ofNat ≠
        some (spec_knight_duty (breath_duty_from_time m 800) 1 0) := by
    intro m hpi hpow
    have hv := frame_full_base m hpow
    have hr : List.range 3 = [0, 1, 2] := by decide
    simp only [duty_vector, hr, List.map_cons, List.map_nil, List.cons.injEq] at hv
    have h0 : last_written (knight_frame m false 3 8191 1) 0 = some 3685 := by
      simpa using hv.1
    show (last_written (knight_frame m false 3 (breath_duty_from_time m 800) 1) 0).map
      Int.ofNat ≠ _
    rw [breath_duty_800 m hpi, h0, spec_duty_8191]
    decide
  refine ⟨key libm_ref cosf_ref_exact.2 powf_ref_decays.1, ?_⟩
  rintro ⟨m, hpi, hpow, h⟩
  exact key m hpi hpow h

/-- C2. From `idx = 0`, `dir = +1` the head index used by tick `k` of
`pattern_knight` is the triangle wave of period `2 (n - 1)`, for every number of
outputs `n ≥ 2` (that fits an `int`); for `n = 3` the first six ticks use the
indices `0, 1, 2, 1, 0, 1`. -/
theorem sweep_index_ping_pong (n k : ℕ) (hn : 2 ≤ n) (hmax : n ≤ INT_MAX) :
    (sweep_state n k).idx = (triangle n k : ℤ) ∧
      (List.range 6).map (fun i => (sweep_state NLEDS i).idx) = [0, 1, 2, 1, 0, 1] := by
  refine ⟨?_, by decide⟩
  rw [sweep_state_eq n k hn hmax]
  rfl

theorem sweep_index_ping_pong_witness :
    2 ≤ 5 ∧ 5 ≤ INT_MAX ∧ (sweep_state 5 7).idx = (triangle 5 7 : ℤ) ∧
      (List.range 6).map (fun i => (sweep_state NLEDS i).idx) = [0, 1, 2, 1, 0, 1] :=
  ⟨by decide, by decide, sweep_index_ping_pong 5 7 (by decide) (by decide)⟩

/-- C3. In every tick reachable from `idx = 0`, `dir = +1`, every channel that
`pattern_knight` passes to the duty-write primitive (by `set_all`, for the head
and for the tail) lies in `[0, n-1]`, for every number of outputs `n ≥ 2`, the
program's `NLEDS = 3` among them. -/
theorem knight_writes_in_range (m : Libm) (al : Bool) (n : ℕ) (ts : ℕ → ℕ) (k : ℕ)
    (hn : 2 ≤ n) (hmax : n + segments ≤ INT_MAX) :
    ∀ ws ∈ pattern_knight m al n ts k, ∀ w ∈ ws, 0 ≤ w.ch ∧ w.ch < n := by
  intro ws hws w hw
  unfold pattern_knight at hws
  rw [List.mem_map] at hws
  obtain ⟨i, -, rfl⟩ := hws
  have hmax' : n ≤ INT_MAX := by unfold segments at hmax; omega
  exact mem_knight_frame m al n _ _ (sweep_state_idx_range n i hn hmax') hmax w hw

theorem knight_writes_in_range_witness :
    2 ≤ NLEDS ∧ NLEDS + segments ≤ INT_MAX ∧
      ∀ ws ∈ pattern_knight libm_ref ACTIVE_LOW NLEDS (fun i => 150 * i) 6,
        ∀ w ∈ ws, 0 ≤ w.ch ∧ w.ch < NLEDS :=
  ⟨by decide, by decide,
    knight_writes_in_range libm_ref ACTIVE_LOW NLEDS (fun i => 150 * i) 6 (by decide)
      (by decide)⟩

/-- C4. For every elapsed time `t`, with a cosine in `[-1, 1]` and decay factors
`0 ≤ powf(0.45f, 2) ≤ powf(0.45f, 1) = 0.45f`: the float converted to the base duty
and the floats converted to the tail duties are non-negative, the base
`breath_duty_from_time t` and both tail duties are at most `LEDC_MAX_DUTY = 2^13 - 1
= 8191`, every duty a tick hands to the sink is at most `LEDC_MAX_DUTY` under either
polarity, and the active-low replacement `LEDC_MAX_DUTY - duty` of `set_led_inv`
stays in `[0, LEDC_MAX_DUTY]`. -/
theorem duties_in_range (m : Libm) (al : Bool) (n t : ℕ) (st : SweepState)
    (hb : CosfBounded m) (hp : PowfDecays m) :
    LEDC_MAX_DUTY = 2 ^ 13 - 1 ∧
      0 ≤ fmul (envelope m t) (u2f LEDC_MAX_DUTY) ∧
      breath_duty_from_time m t ≤ LEDC_MAX_DUTY ∧
      (∀ s, 1 ≤ s → s ≤ segments →
        0 ≤ fmul (u2f (breath_duty_from_time m t)) (m.powf tail_decay (u2f s)) ∧
        tail_duty m (breath_duty_from_time m t) s ≤ LEDC_MAX_DUTY) ∧
      (∀ w ∈ (pattern_knight_tick m al n t st).1, w.duty ≤ LEDC_MAX_DUTY) ∧
      (∀ (i : ℤ) (d : ℕ), d ≤ LEDC_MAX_DUTY →
        (set_led_inv true i d).duty = LEDC_MAX_DUTY - d ∧
        (set_led_inv true i d).duty ≤ LEDC_MAX_DUTY) := by
  have hbase := breath_duty_le m hb t
  have h1 := tail_duty_one_le m hp (breath_duty_from_time m t)
  have h2 := tail_duty_two_le_one m hp (breath_duty_from_time m t)
  have henv := (ease_sine_range m hb (breath_phase t)).1
  refine ⟨by decide, rnd_nonneg (mul_nonneg henv (u2f_nonneg _)), hbase, ?_, ?_, ?_⟩
  · intro s hs1 hs2
    unfold segments at hs2
    have hs : s = 1 ∨ s = 2 := by omega
    rcases hs with rfl | rfl
    · refine ⟨rnd_nonneg (mul_nonneg (u2f_nonneg _) ?_), by omega⟩
      rw [u2f_one, hp.1]
      exact tail_decay_nonneg
    · refine ⟨rnd_nonneg (mul_nonneg (u2f_nonneg _) ?_), by omega⟩
      rw [u2f_two]
      exact hp.2.1
  · intro w hw
    change w ∈ knight_frame m al n (breath_duty_from_time m t) st.idx at hw
    unfold knight_frame at hw
    rw [List.mem_append, List.mem_cons] at hw
    rcases hw with hw | hw | hw
    · rw [(mem_set_all al n 0 w hw).2.2]
      exact set_led_inv_duty_le al 0 0 (Nat.zero_le _)
    · subst hw
      exact set_led_inv_duty_le al _ _ hbase
    · rcases mem_knight_tail_duty m al n _ st.idx w hw with e | e
      · rw [e]
        exact set_led_inv_duty_le al 0 _ (by omega)
      · rw [e]
        exact set_led_inv_duty_le al 0 _ (by omega)
  · intro i d hd
    have e : (set_led_inv true i d).duty = LEDC_MAX_DUTY - d := by
      rw [set_led_inv_duty, if_pos rfl, u32_sub_max d hd]
    exact ⟨e, by rw [e]; omega⟩

theorem duties_in_range_witness :
    CosfBounded libm_ref ∧ PowfDecays libm_ref ∧
      LEDC_MAX_DUTY = 2 ^ 13 - 1 ∧
      0 ≤ fmul (envelope libm_ref 400) (u2f LEDC_MAX_DUTY) ∧
      breath_duty_from_time libm_ref 400 ≤ LEDC_MAX_DUTY ∧
      (∀ s, 1 ≤ s → s ≤ segments →
        0 ≤ fmul (u2f (breath_duty_from_time libm_ref 400))
          (libm_ref.powf tail_decay (u2f s)) ∧
        tail_duty libm_ref (breath_duty_from_time libm_ref 400) s ≤ LEDC_MAX_DUTY) ∧
      (∀ w ∈ (pattern_knight_tick libm_ref true NLEDS 400 ⟨1, 1⟩).1,
        w.duty ≤ LEDC_MAX_DUTY) ∧
      (∀ (i : ℤ) (d : ℕ), d ≤ LEDC_MAX_DUTY →
        (set_led_inv true i d).duty = LEDC_MAX_DUTY - d ∧
        (set_led_inv true i d).duty ≤ LEDC_MAX_DUTY) :=
  ⟨cosf_ref_bounded, powf_ref_decays,
    duties_in_range libm_ref true NLEDS 400 ⟨1, 1⟩ cosf_ref_bounded powf_ref_decays⟩

/-- C5 (amended). The envelope is periodic with period `BREATH_PERIOD_MS = 1600` on
the `uint32_t` times: for every `t` with `t + 1600 ≤ 2^32 - 1`, the envelope value
and `breath_duty_from_time` agree at `t` and `t + 1600`, whatever the cosine; more
generally they agree at any two `uint32_t` times congruent modulo 1600. -/
theorem breath_periodic (m : Libm) (t : ℕ) (ht : t + 1600 < 2 ^ 32) :
    BREATH_PERIOD_MS = 1600 ∧
      envelope m (t + 1600) = envelope m t ∧
      breath_duty_from_time m (t + 1600) = breath_duty_from_time m t ∧
      ∀ u : ℕ, u < 2 ^ 32 → u % 1600 = t % 1600 →
        envelope m u = envelope m t ∧
        breath_duty_from_time m u = breath_duty_from_time m t := by
  have hph : breath_phase (t + 1600) = breath_phase t :=
    breath_phase_add_period t (by unfold BREATH_PERIOD_MS; omega)
  refine ⟨rfl, ?_, ?_, ?_⟩
  · unfold envelope
    rw [hph]
  · unfold breath_duty_from_time envelope
    rw [hph]
  · intro u hu hmod
    have hpu : breath_phase u = breath_phase t := by
      unfold breath_phase
      have : u % 4294967296 % BREATH_PERIOD_MS = t % 4294967296 % BREATH_PERIOD_MS := by
        unfold BREATH_PERIOD_MS
        omega
      rw [this]
    constructor
    · unfold envelope
      rw [hpu]
    · unfold breath_duty_from_time envelope
      rw [hpu]

theorem breath_periodic_witness :
    123 + 1600 < 2 ^ 32 ∧ BREATH_PERIOD_MS = 1600 ∧
      envelope libm_ref (123 + 1600) = envelope libm_ref 123 ∧
      breath_duty_from_time libm_ref (123 + 1600) = breath_duty_from_time libm_ref 123 ∧
      ∀ u : ℕ, u < 2 ^ 32 → u % 1600 = 123 % 1600 →
        envelope libm_ref u = envelope libm_ref 123 ∧
        breath_duty_from_time libm_ref u = breath_duty_from_time libm_ref 123 :=
  ⟨by decide, breath_periodic libm_ref 123 (by decide)⟩

/-- At the last `uint32_t` time `t = 2^32 - 1` the parameter receives `t + 1600` as
1599 (`2^32` is not a multiple of 1600): the phases are `895/1600` and `1599/1600`
and the duties differ, at least 4095 against at most 2047, for the reference library
and for every library whose cosine is not positive at the first argument and in
`[1/2, 1]` at the second. -/
theorem breath_wrap_counterexample :
    (4294967295 < 2 ^ 32 ∧
      breath_duty_from_time libm_ref 4294967295 ≠
        breath_duty_from_time libm_ref (4294967295 + 1600)) ∧
      ¬ ∃ m : Libm,
        m.cosf (fmul (fmul 2 M_PI_f) (breath_phase 4294967295)) ≤ 0 ∧
        1 / 2 ≤ m.cosf (fmul (fmul 2 M_PI_f) (breath_phase (4294967295 + 1600))) ∧
        m.cosf (fmul (fmul 2 M_PI_f) (breath_phase (4294967295 + 1600))) ≤ 1 ∧
        breath_duty_from_time m 4294967295 = breath_duty_from_time m (4294967295 + 1600) := by
  have key : ∀ m : Libm,
      m.cosf (fmul (fmul 2 M_PI_f) (breath_phase 4294967295)) ≤ 0 →
      1 / 2 ≤ m.cosf (fmul (fmul 2 M_PI_f) (breath_phase (4294967295 + 1600))) →
      m.cosf (fmul (fmul 2 M_PI_f) (breath_phase (4294967295 + 1600))) ≤ 1 →
      breath_duty_from_time m 4294967295 ≠
        breath_duty_from_time m (4294967295 + 1600) := by
    intro m h1 h2 h3 h
    have a := breath_duty_ge_of_cos_nonpos m 4294967295 h1
    have b := breath_duty_le_of_cos_ge_half m (4294967295 + 1600) h2 h3
    omega
  have r1 : libm_ref.cosf (fmul (fmul 2 M_PI_f) (breath_phase 4294967295)) ≤ 0 := by
    rw [cos_arg_last]
    exact cosf_ref_last
  have r2 : 1 / 2 ≤ libm_ref.cosf (fmul (fmul 2 M_PI_f) (breath_phase (4294967295 + 1600))) ∧
      libm_ref.cosf (fmul (fmul 2 M_PI_f) (breath_phase (4294967295 + 1600))) ≤ 1 := by
    rw [cos_arg_wrapped]
    exact cosf_ref_wrapped
  refine ⟨⟨by decide, key libm_ref r1 r2.1 r2.2⟩, ?_⟩
  rintro ⟨m, h1, h2, h3, h⟩
  exact key m h1 h2 h3 h

/-- C6 (amended). With `NLEDS = 3`, `tail_decay = 0.45f`, `segments = 2`, head index
1 and a time `t` at which `base = 8191`, the duty vector produced by one tick of
`pattern_knight` is `[3685, 8191, 3685]` (the product `8191 * 0.45f` is truncated),
for every library with `powf(x, 1) = x`. -/
theorem knight_vector_full_base (m : Libm) (t : ℕ) (dir : ℤ)
    (hpow : m.powf tail_decay 1 = tail_decay)
    (hbase : breath_duty_from_time m t = 8191) :
    duty_vector NLEDS (pattern_knight_tick m ACTIVE_LOW NLEDS t ⟨1, dir⟩).1 =
      [some 3685, some 8191, some 3685] := by
  show duty_vector 3 (knight_frame m false 3 (breath_duty_from_time m t) 1) = _
  rw [hbase]
  exact frame_full_base m hpow

theorem knight_vector_full_base_witness :
    libm_ref.powf tail_decay 1 = tail_decay ∧ breath_duty_from_time libm_ref 800 = 8191 ∧
      duty_vector NLEDS (pattern_knight_tick libm_ref ACTIVE_LOW NLEDS 800 ⟨1, 1⟩).1 =
        [some 3685, some 8191, some 3685] :=
  ⟨powf_ref_decays.1, breath_duty_800 libm_ref cosf_ref_exact.2,
    knight_vector_full_base libm_ref 800 1 powf_ref_decays.1
      (breath_duty_800 libm_ref cosf_ref_exact.2)⟩

/-- At `t = 800` the reference library gives `base = 8191` and the tick with head
index 1 does not leave `[3686, 8191, 3686]`; no library with `powf(x, 1) = x` and no
time with `base = 8191` gives that vector. -/
theorem knight_vector_full_base_counterexample :
    (breath_duty_from_time libm_ref 800 = 8191 ∧
      duty_vector NLEDS (pattern_knight_tick libm_ref ACTIVE_LOW NLEDS 800 ⟨1, 1⟩).1 ≠
        [some 3686, some 8191, some 3686]) ∧
      ¬ ∃ (m : Libm) (t : ℕ) (dir : ℤ), m.powf tail_decay 1 = tail_decay ∧
        breath_duty_from_time m t = 8191 ∧
        duty_vector NLEDS (pattern_knight_tick m ACTIVE_LOW NLEDS t ⟨1, dir⟩).1 =
          [some 3686, some 8191, some 3686] := by
  have key : ∀ (m : Libm) (t : ℕ) (dir : ℤ), m.powf tail_decay 1 = tail_decay →
      breath_duty_from_time m t = 8191 →
      duty_vector NLEDS (pattern_knight_tick m ACTIVE_LOW NLEDS t ⟨1, dir⟩).1 ≠
        [some 3686, some 8191, some 3686] := by
    intro m t dir hpow hbase
    have e : duty_vector NLEDS (pattern_knight_tick m ACTIVE_LOW NLEDS t ⟨1, dir⟩).1 =
        [some 3685, some 8191, some 3685] := by
      show duty_vector 3 (knight_frame m false 3 (breath_duty_from_time m t) 1) = _
      rw [hbase]
      exact frame_full_base m hpow
    rw [e]
    decide
  have hb := breath_duty_800 libm_ref cosf_ref_exact.2
  refine ⟨⟨hb, key libm_ref 800 1 powf_ref_decays.1 hb⟩, ?_⟩
  rintro ⟨m, t, dir, hpow, hbase, h⟩
  exact key m t dir hpow hbase h

/-- C8. With a cosine that is `1` at `0`, `-1` at `(float)M_PI` and stays in
`[-1, 1]`: `ease_sine(0) = 0` and `ease_sine(1/2) = 1`, hence
`breath_duty_from_time(0) = 0` and `breath_duty_from_time(800) = LEDC_MAX_DUTY =
8191`, and `0 ≤ envelope(t) ≤ 1` for all `t`. -/
theorem envelope_zero_peak_range (m : Libm) (he : CosfExact m) (hb : CosfBounded m) :
    ease_sine m 0 = 0 ∧ ease_sine m (1 / 2) = 1 ∧
      breath_duty_from_time m 0 = 0 ∧
      breath_duty_from_time m (BREATH_PERIOD_MS / 2) = LEDC_MAX_DUTY ∧
      LEDC_MAX_DUTY = 8191 ∧
      ∀ t, 0 ≤ envelope m t ∧ envelope m t ≤ 1 :=
  ⟨ease_sine_zero m he.1, ease_sine_half m he.2, breath_duty_zero m he.1,
    breath_duty_800 m he.2, LEDC_MAX_DUTY_eq, fun t => ease_sine_range m hb (breath_phase t)⟩

theorem envelope_zero_peak_range_witness :
    CosfExact libm_ref ∧ CosfBounded libm_ref ∧
      ease_sine libm_ref 0 = 0 ∧ ease_sine libm_ref (1 / 2) = 1 ∧
      breath_duty_from_time libm_ref 0 = 0 ∧
      breath_duty_from_time libm_ref (BREATH_PERIOD_MS / 2) = LEDC_MAX_DUTY ∧
      LEDC_MAX_DUTY = 8191 ∧
      ∀ t, 0 ≤ envelope libm_ref t ∧ envelope libm_ref t ≤ 1 :=
  ⟨cosf_ref_exact, cosf_ref_bounded,
    envelope_zero_peak_range libm_ref cosf_ref_exact cosf_ref_bounded⟩

/-- C9. With decay factors `0 ≤ powf(0.45f, 2) ≤ powf(0.45f, 1) = 0.45f`, for every
base duty: the duty for distance 1 is at most `base` and the duty for distance 2 is
at most the duty for distance 1; and for every head index in `[0, n-1]` the duties
a tick leaves on two outputs `p`, `q` do not increase with the distance from the
head. -/
theorem tail_duties_decrease (m : Libm) (n t : ℕ) (st : SweepState) (base : ℕ)
    (p q : ℤ) (hpw : PowfDecays m) (hidx : 0 ≤ st.idx ∧ st.idx < n)
    (hmax : n + segments ≤ INT_MAX) (hp : 0 ≤ p ∧ p < n) (hq : 0 ≤ q ∧ q < n)
    (hd : (p - st.idx).natAbs ≤ (q - st.idx).natAbs) :
    (0 < tail_decay ∧ tail_decay < 1) ∧
      tail_duty m base 1 ≤ base ∧ tail_duty m base 2 ≤ tail_duty m base 1 ∧
      ∃ dp dq, last_written (pattern_knight_tick m ACTIVE_LOW n t st).1 p = some dp ∧
        last_written (pattern_knight_tick m ACTIVE_LOW n t st).1 q = some dq ∧ dq ≤ dp := by
  refine ⟨?_, tail_duty_one_le m hpw base, tail_duty_two_le_one m hpw base, ?_⟩
  · rw [tail_decay_eq]; norm_num
  · exact ⟨_, _, last_written_knight_frame m n _ st.idx hidx hmax p hp,
      last_written_knight_frame m n _ st.idx hidx hmax q hq,
      knight_duty_antitone m hpw _ st.idx p q hd⟩

theorem tail_duties_decrease_witness :
    PowfDecays libm_ref ∧ ((0 : ℤ) ≤ 0 ∧ (0 : ℤ) < (3 : ℕ)) ∧ 3 + segments ≤ INT_MAX ∧
      ((0 : ℤ) ≤ 1 ∧ (1 : ℤ) < (3 : ℕ)) ∧ ((0 : ℤ) ≤ 2 ∧ (2 : ℤ) < (3 : ℕ)) ∧
      ((1 : ℤ) - 0).natAbs ≤ ((2 : ℤ) - 0).natAbs ∧
      (0 < tail_decay ∧ tail_decay < 1) ∧
      tail_duty libm_ref 4000 1 ≤ 4000 ∧
      tail_duty libm_ref 4000 2 ≤ tail_duty libm_ref 4000 1 ∧
      ∃ dp dq, last_written (pattern_knight_tick libm_ref ACTIVE_LOW 3 400 ⟨0, 1⟩).1 1 =
          some dp ∧
        last_written (pattern_knight_tick libm_ref ACTIVE_LOW 3 400 ⟨0, 1⟩).1 2 = some dq ∧
        dq ≤ dp :=
  ⟨powf_ref_decays, by decide, by decide, by decide, by decide, by decide,
    tail_duties_decrease libm_ref 3 400 ⟨0, 1⟩ 4000 1 2 powf_ref_decays (by decide)
      (by decide) (by decide) (by decide) (by decide)⟩

/-- C10. With decay factors `0 ≤ powf(0.45f, 2) ≤ powf(0.45f, 1) = 0.45f`, in every
tick with head index in `[0, n-1]` and `base > 0`: the output holding `base` is
exactly the head; every other in-range output within distance `segments` holds a
duty strictly below `base`; the writes of the tick are those of `set_all(0)`, then
the head, then the tail, and no tail write targets the head; and every write of the
tick is to a channel in `[0, n-1]`, so that `index - s` and `index + s` outside the
range are never written. -/
theorem knight_head_unique (m : Libm) (n t : ℕ) (st : SweepState)
    (hpw : PowfDecays m) (hidx : 0 ≤ st.idx ∧ st.idx < n)
    (hmax : n + segments ≤ INT_MAX) (hbase : 0 < breath_duty_from_time m t) :
    (∀ p : ℤ, last_written (pattern_knight_tick m ACTIVE_LOW n t st).1 p =
        some (breath_duty_from_time m t) ↔ p = st.idx) ∧
      (∀ p : ℤ, 0 ≤ p ∧ p < n → p ≠ st.idx → (p - st.idx).natAbs ≤ segments →
        last_written (pattern_knight_tick m ACTIVE_LOW n t st).1 p =
          some (tail_duty m (breath_duty_from_time m t) (p - st.idx).natAbs) ∧
        tail_duty m (breath_duty_from_time m t) (p - st.idx).natAbs <
          breath_duty_from_time m t) ∧
      ((pattern_knight_tick m ACTIVE_LOW n t st).1 =
          set_all ACTIVE_LOW n 0 ++
            set_led_inv ACTIVE_LOW st.idx (breath_duty_from_time m t) ::
              knight_tail m ACTIVE_LOW n (breath_duty_from_time m t) st.idx ∧
        ∀ w ∈ knight_tail m ACTIVE_LOW n (breath_duty_from_time m t) st.idx,
          w.ch ≠ st.idx) ∧
      (∀ w ∈ (pattern_knight_tick m ACTIVE_LOW n t st).1, 0 ≤ w.ch ∧ w.ch < n) ∧
      (∀ p : ℤ, ¬ (0 ≤ p ∧ p < n) →
        last_written (pattern_knight_tick m ACTIVE_LOW n t st).1 p = none) := by
  refine ⟨?_, ?_, ⟨rfl, ?_⟩, ?_, ?_⟩
  · intro p
    show last_written (knight_frame m false n (breath_duty_from_time m t) st.idx) p = _ ↔ _
    by_cases hp : 0 ≤ p ∧ p < n
    · rw [last_written_knight_frame m n _ st.idx hidx hmax p hp]
      constructor
      · intro h
        by_contra hne
        have := knight_duty_lt m hpw _ hbase st.idx p hne
        have e : knight_duty m (breath_duty_from_time m t) st.idx p =
            breath_duty_from_time m t := Option.some.inj h
        omega
      · intro h
        simp [knight_duty, h]
    · rw [last_written_out_of_range m false n _ st.idx hidx hmax p hp]
      constructor
      · intro h
        exact absurd h (by simp)
      · intro h
        exact absurd (h ▸ hidx) hp
  · intro p hp hne hdist
    have h1 := last_written_knight_frame m n (breath_duty_from_time m t) st.idx hidx hmax p hp
    have h2 := knight_duty_lt m hpw _ hbase st.idx p hne
    have e : knight_duty m (breath_duty_from_time m t) st.idx p =
        tail_duty m (breath_duty_from_time m t) (p - st.idx).natAbs := by
      unfold knight_duty
      rw [if_neg hne, if_pos hdist]
    rw [e] at h1 h2
    exact ⟨h1, h2⟩
  · intro w hw
    exact (mem_knight_tail m false n _ st.idx hidx hmax w hw).2.2.1
  · intro w hw
    exact mem_knight_frame m false n _ st.idx hidx hmax w hw
  · intro p hp
    exact last_written_out_of_range m false n _ st.idx hidx hmax p hp

theorem knight_head_unique_witness :
    PowfDecays libm_ref ∧ ((0 : ℤ) ≤ 1 ∧ (1 : ℤ) < (3 : ℕ)) ∧ 3 + segments ≤ INT_MAX ∧
      0 < breath_duty_from_time libm_ref 800 ∧
      (∀ p : ℤ, last_written (pattern_knight_tick libm_ref ACTIVE_LOW 3 800 ⟨1, 1⟩).1 p =
        some (breath_duty_from_time libm_ref 800) ↔ p = 1) ∧
      (∀ p : ℤ, 0 ≤ p ∧ p < (3 : ℕ) → p ≠ 1 → (p - 1).natAbs ≤ segments →
        last_written (pattern_knight_tick libm_ref ACTIVE_LOW 3 800 ⟨1, 1⟩).1 p =
          some (tail_duty libm_ref (breath_duty_from_time libm_ref 800) (p - 1).natAbs) ∧
        tail_duty libm_ref (breath_duty_from_time libm_ref 800) (p - 1).natAbs <
          breath_duty_from_time libm_ref 800) ∧
      ((pattern_knight_tick libm_ref ACTIVE_LOW 3 800 ⟨1, 1⟩).1 =
          set_all ACTIVE_LOW 3 0 ++
            set_led_inv ACTIVE_LOW 1 (breath_duty_from_time libm_ref 800) ::
              knight_tail libm_ref ACTIVE_LOW 3 (breath_duty_from_time libm_ref 800) 1 ∧
        ∀ w ∈ knight_tail libm_ref ACTIVE_LOW 3 (breath_duty_from_time libm_ref 800) 1,
          w.ch ≠ 1) ∧
      (∀ w ∈ (pattern_knight_tick libm_ref ACTIVE_LOW 3 800 ⟨1, 1⟩).1,
        0 ≤ w.ch ∧ w.ch < (3 : ℕ)) ∧
      (∀ p : ℤ, ¬ (0 ≤ p ∧ p < (3 : ℕ)) →
        last_written (pattern_knight_tick libm_ref ACTIVE_LOW 3 800 ⟨1, 1⟩).1 p = none) := by
  have hb : 0 < breath_duty_from_time libm_ref 800 := by
    rw [breath_duty_800 libm_ref cosf_ref_exact.2]
    decide
  exact ⟨powf_ref_decays, by decide, by decide, hb,
    knight_head_unique libm_ref 3 800 ⟨1, 1⟩ powf_ref_decays (by decide) (by decide) hb⟩

end HelloWorld
